import Mathlib

/-!
Verification development for the docs2mdd repository.

The definitions below are shallow embeddings of the Python source under
`src/docs2mdd/` (watcher.py, daemon.py, config.py, main.py,
converter/base.py and the per-format converter classes).  Machine-level
details that the verified claims do not touch (actual document parsing,
byte contents of assets, wall-clock sleeping) are abstracted: polls of the
watched file become an observation stream, `converter.convert` becomes a
parameter returning `Except`, and the filesystem becomes an explicit state
of written files and created directories with natural-number modification
times.
-/

namespace Docs2Mdd

/-! ## Stability detector (`ConversionHandler._wait_for_file_ready`, watcher.py 59-100)

One poll of the watched file observes either that the file is gone
(`Path.exists()` returned `False`), that `stat()` raised `OSError`, or the
file's current size in bytes. -/

inductive PollObs where
  | missing
  | statError
  | size (n : Nat)
deriving DecidableEq, Repr

/-- Constant `STABILITY_CHECK_COUNT = 3` (watcher.py line 22). -/
def STABILITY_CHECK_COUNT : Nat := 3

/-- Constant `STABILITY_CHECK_INTERVAL = 0.5` seconds (watcher.py line 21). -/
def STABILITY_CHECK_INTERVAL : ℚ := 1 / 2

/-- Constant `MAX_WAIT_TIME = 30.0` seconds (watcher.py line 23). -/
def MAX_WAIT_TIME : ℚ := 30

/-- Number of loop iterations performed by `_wait_for_file_ready`:
`elapsed` starts at `0.0`, grows by `0.5` per iteration (exact in binary
floating point), and the loop guard is `elapsed < 30.0`, so exactly 60
iterations are possible. -/
def maxPolls : Nat := 60

/-- One iteration of the body of `_wait_for_file_ready` acting on the
`(stable_count, last_size)` state (watcher.py 72-97).  `last_size`
starts at `-1`, modelled as `none`.  On `OSError` the counter resets and
`last_size` is not updated (the assignment at line 90 is inside the
`try`).  A zero size resets the counter (line 80-81) and still updates
`last_size` (line 90). -/
def waitStep (sc : Nat) (ls : Option Nat) (o : PollObs) : Nat × Option Nat :=
  match o with
  | .missing => (sc, ls)
  | .statError => (0, ls)
  | .size n =>
    if n = 0 then (0, some 0)
    else if ls = some n then (sc + 1, some n)
    else (0, some n)

/-- The polling loop of `_wait_for_file_ready` (watcher.py 71-100).
`obs k` is what the `k`-th poll observes; `fuel` is the number of
remaining iterations allowed by the `elapsed < MAX_WAIT_TIME` guard.
Returns `false` on timeout, `false` as soon as the file does not exist
(line 73-75), `true` as soon as the consecutive-stable counter reaches
`STABILITY_CHECK_COUNT` (line 82-86). -/
def waitForFileReadyAux (obs : Nat → PollObs) : Nat → Nat → Nat → Option Nat → Bool
  | 0, _, _, _ => false
  | fuel + 1, k, sc, ls =>
    match obs k with
    | .missing => false
    | .statError => waitForFileReadyAux obs fuel (k + 1) 0 ls
    | .size n =>
      if n = 0 then waitForFileReadyAux obs fuel (k + 1) 0 (some 0)
      else if ls = some n then
        (if STABILITY_CHECK_COUNT ≤ sc + 1 then true
         else waitForFileReadyAux obs fuel (k + 1) (sc + 1) (some n))
      else waitForFileReadyAux obs fuel (k + 1) 0 (some n)

/-- Method `_wait_for_file_ready`, started with `stable_count = 0`,
`last_size = -1` and the full time budget. -/
def waitForFileReady (obs : Nat → PollObs) : Bool :=
  waitForFileReadyAux obs maxPolls 0 0 none

/-- The `(stable_count, last_size)` state after the first `k` polls have
been processed, ignoring early returns (used to state the
characterization of `waitForFileReady`). -/
def scState (obs : Nat → PollObs) : Nat → Nat × Option Nat
  | 0 => (0, none)
  | k + 1 => waitStep (scState obs k).1 (scState obs k).2 (obs k)

/-! ## Paths, stems and suffixes

A filesystem path is modelled as its list of components.  `stemOf` and
`suffixOf` follow CPython's `pathlib`: the split point is the last `.` of
the final component provided its index `i` satisfies `0 < i < len - 1`;
otherwise the stem is the whole name and the suffix is empty. -/

abbrev FsPath := List String

/-- Index of the last `.` in a character list, if any. -/
def lastDotIdx (cs : List Char) : Option Nat :=
  match cs.reverse.findIdx? (· == '.') with
  | none => none
  | some j => some (cs.length - 1 - j)

/-- Computes `pathlib.PurePath.stem` of a file name. -/
def stemOf (s : String) : String :=
  match lastDotIdx s.data with
  | none => s
  | some i => if 0 < i ∧ i < s.data.length - 1 then ⟨s.data.take i⟩ else s

/-- Computes `pathlib.PurePath.suffix` of a file name. -/
def suffixOf (s : String) : String :=
  match lastDotIdx s.data with
  | none => ""
  | some i => if 0 < i ∧ i < s.data.length - 1 then ⟨s.data.drop i⟩ else ""

/-- Python `str.lower()` as used on extensions (ASCII case folding suffices for
the extension strings involved). -/
def strLower (s : String) : String :=
  ⟨s.data.map Char.toLower⟩

/-- A source file under the watched source root: its directory components
relative to `src_dir`, its file name, and its modification time
(`st_mtime`, modelled as a natural number). -/
structure SrcFile where
  relDir : FsPath
  name : String
  mtime : Nat
deriving DecidableEq, Repr

/-! ## Converters (converter/base.py, converter/<fmt>.py, watcher.py 146-150, main.py 113) -/

/-- The closed set of converter classes in `src/docs2mdd/converter/`. -/
inductive Conv where
  | pdf
  | docx
  | hwpx
  | html
  | pptx
  | xlsx
deriving DecidableEq, Repr

/-- The `supported_extensions` class attribute of each converter. -/
def Conv.exts : Conv → List String
  | .pdf => [".pdf"]
  | .docx => [".docx"]
  | .hwpx => [".hwpx"]
  | .html => [".html", ".htm"]
  | .pptx => [".pptx"]
  | .xlsx => [".xlsx"]

/-- Method `Converter.can_handle` (converter/base.py 101-104):
`file_path.suffix.lower() in cls.supported_extensions`. -/
def canHandle (c : Conv) (name : String) : Bool :=
  strLower (suffixOf name) ∈ c.exts

/-- Method `ConversionHandler._find_converter` (watcher.py 102-107): first
converter in list order whose `can_handle` accepts the path. -/
def findConverter (convs : List Conv) (name : String) : Option Conv :=
  convs.find? (fun c => canHandle c name)

/-- The configuration values consumed by the watcher (config.py). -/
structure ConfigM where
  srcDir : FsPath
  destDir : FsPath
  supportedExtensions : List String
  assetsDirname : String
deriving DecidableEq, Repr

/-- The `Config.default()` field values (config.py 27-28, 64-70). -/
def defaultConfig : ConfigM :=
  { srcDir := ["src"], destDir := ["dest"],
    supportedExtensions := [".pdf"], assetsDirname := "assets" }

/-- Constructor `FileWatcher.__init__` (watcher.py 146-148): the converter list is the
literal `[PDFConverter(), DocxConverter()]`; the `config` argument is
stored but not consulted when building it. -/
def fileWatcherConverters (_config : ConfigM) : List Conv :=
  [Conv.pdf, Conv.docx]

/-- The converter list built by the one-shot `convert` CLI command
(main.py 113). -/
def convertCommandConverters : List Conv :=
  [Conv.pdf, Conv.docx, Conv.hwpx, Conv.html]

/-! ## Output locations (watcher.py 109-135, 180-183) -/

/-- Computes `output_dir = config.dest_dir / relative_path.parent / file_path.stem`
(watcher.py 116 and 182). -/
def outputDirOf (destDir : FsPath) (f : SrcFile) : FsPath :=
  destDir ++ f.relDir ++ [stemOf f.name]

/-- Computes `md_path = output_dir / f"{file_path.stem}.md"` (watcher.py 123 and
183). -/
def mdPathOf (destDir : FsPath) (f : SrcFile) : FsPath :=
  outputDirOf destDir f ++ [stemOf f.name ++ ".md"]

/-- Computes `assets_dir = output_dir / config.assets_dirname` (watcher.py 129). -/
def assetsDirOf (destDir : FsPath) (assetsDirname : String) (f : SrcFile) : FsPath :=
  outputDirOf destDir f ++ [assetsDirname]

/-! ## Conversion results and the filesystem state -/

/-- The parts of `ConversionResult` (converter/base.py 63-72) that the
dispatcher writes to disk: the Markdown text and the asset file names
(`Asset.filename`); asset bytes and MIME types never influence control
flow. `has_assets` is `len(assets) > 0`. -/
structure ConvResult where
  markdown : String
  assets : List String
deriving DecidableEq, Repr

/-- Destination-tree filesystem state: written files (most recent write
first, so `List.lookup` returns the latest modification time) and created
directories. -/
structure FS where
  files : List (FsPath × Nat)
  dirs : List FsPath
deriving DecidableEq, Repr

def FS.writeFile (fs : FS) (p : FsPath) (t : Nat) : FS :=
  ⟨(p, t) :: fs.files, fs.dirs⟩

def FS.mkdir (fs : FS) (p : FsPath) : FS :=
  ⟨fs.files, p :: fs.dirs⟩

/-- The `st_mtime` of a destination file if it exists (`Path.exists()` plus
`stat()`). -/
def FS.mtimeOf (fs : FS) (p : FsPath) : Option Nat :=
  fs.files.lookup p

/-- Method `ConversionHandler._process_file` (watcher.py 109-140): make the
output directory, run the converter, write the Markdown, then write each
asset under the assets directory.  The converter is abstracted as
`co : SrcFile → Except String ConvResult`; a raised exception is the
`.error` case, which carries the state at the raise point (the output
directory has already been created, nothing has been written).  All
writes stamp the current time `now`.  The handler's own `logger.info` /
`logger.debug` success messages and the completion callback do not touch
the destination tree and are omitted here. -/
def processFile (destDir : FsPath) (assetsDirname : String)
    (co : SrcFile → Except String ConvResult) (now : Nat) (fs : FS) (f : SrcFile) :
    Except (String × FS) FS :=
  let outDir := outputDirOf destDir f
  let fs1 := fs.mkdir outDir
  match co f with
  | .error e => .error (e, fs1)
  | .ok r =>
    let fs2 := fs1.writeFile (mdPathOf destDir f) now
    if r.assets.isEmpty then .ok fs2
    else
      let adir := assetsDirOf destDir assetsDirname f
      .ok (r.assets.foldl (fun acc a => acc.writeFile (adir ++ [a]) now) (fs2.mkdir adir))

/-! ## Log records -/

inductive LogLevel where
  | debug
  | info
  | warning
  | error
deriving DecidableEq, Repr

/-- Which log statement of watcher.py fired. -/
inductive LogTag where
  | detected
  | unsupportedExt
  | noConverter
  | stabilityFailed
  | convertFailed
  | sweepStart
  | skipExisting
  | convertExisting
deriving DecidableEq, Repr

structure LogEntry where
  level : LogLevel
  tag : LogTag
  path : String
deriving DecidableEq, Repr

/-- Method `ConversionHandler.on_created` (watcher.py 30-57): ignore directory
events; log detection at info; drop unsupported extensions with a debug
log; drop files with no converter with a warning log; run the stability
wait (the file's poll observations are `obsOf f`), logging an error on
failure; finally call `_process_file` inside `try/except`, logging an
error that names the source path if it raises. -/
def onCreated (cfg : ConfigM) (convs : List Conv)
    (co : SrcFile → Except String ConvResult) (obsOf : SrcFile → Nat → PollObs)
    (now : Nat) (fs : FS) (isDir : Bool) (f : SrcFile) : FS × List LogEntry :=
  if isDir then (fs, [])
  else
    let logs := [⟨.info, .detected, f.name⟩]
    if strLower (suffixOf f.name) ∉ cfg.supportedExtensions then
      (fs, logs ++ [⟨.debug, .unsupportedExt, f.name⟩])
    else
      match findConverter convs f.name with
      | none => (fs, logs ++ [⟨.warning, .noConverter, f.name⟩])
      | some _ =>
        if ¬ waitForFileReady (obsOf f) then
          (fs, logs ++ [⟨.error, .stabilityFailed, f.name⟩])
        else
          match processFile cfg.destDir cfg.assetsDirname co now fs f with
          | .error (_, fs1) => (fs1, logs ++ [⟨.error, .convertFailed, f.name⟩])
          | .ok fs1 => (fs1, logs)

/-! ## Backlog sweep (`FileWatcher.process_existing_files`, watcher.py 174-194) -/

/-- Whether `src_dir.rglob(f"*{ext}")` yields a file: its name matched
against the glob pattern `*` + `ext` literally, i.e. the name ends with
`ext` (case-sensitively). -/
def rglobMatches (ext : String) (f : SrcFile) : Bool :=
  ext.data.isSuffixOf f.name.data

/-- The files the sweep visits, in visit order: for each configured
extension in configuration order (line 178), all matching files in
directory-traversal order (line 179).  `traversal` is the recursive
directory traversal of the source root. -/
def sweepFileList (exts : List String) (traversal : List SrcFile) : List SrcFile :=
  exts.flatMap (fun e => traversal.filter (rglobMatches e))

/-- The skip test of lines 185-189: the target Markdown file exists and
`file_path.stat().st_mtime <= md_path.stat().st_mtime`. -/
def mdUpToDate (destDir : FsPath) (fs : FS) (f : SrcFile) : Bool :=
  match fs.mtimeOf (mdPathOf destDir f) with
  | some m => f.mtime ≤ m
  | none => false

/-- One iteration of the sweep loop body (watcher.py 180-194) on one
visited file: skip when the Markdown is up to date (debug log); otherwise
log the re-conversion at info (line 191, emitted before the converter
lookup), look up a converter, and if one exists call `_process_file` with
no surrounding `try` — a raised exception is the `.error` case and
propagates.  The returned `Bool` records whether the file was converted. -/
def sweepVisit (convs : List Conv) (co : SrcFile → Except String ConvResult)
    (destDir : FsPath) (assetsDirname : String) (now : Nat) (fs : FS) (f : SrcFile) :
    Except (String × FS × List LogEntry) (FS × Bool × List LogEntry) :=
  if mdUpToDate destDir fs f then .ok (fs, false, [⟨.debug, .skipExisting, f.name⟩])
  else
    let lg : List LogEntry := [⟨.info, .convertExisting, f.name⟩]
    match findConverter convs f.name with
    | none => .ok (fs, false, lg)
    | some _ =>
      match processFile destDir assetsDirname co now fs f with
      | .error (e, fs1) => .error (e, fs1, lg)
      | .ok fs1 => .ok (fs1, true, lg)

/-- The sweep loop over the visit list, accumulating converted files and
log entries; an exception from any visit aborts the whole loop. -/
def sweepGo (convs : List Conv) (co : SrcFile → Except String ConvResult)
    (destDir : FsPath) (assetsDirname : String) (now : Nat) :
    List SrcFile → FS → List SrcFile → List LogEntry →
    Except (String × FS × List LogEntry) (FS × List SrcFile × List LogEntry)
  | [], fs, accC, logs => .ok (fs, accC.reverse, logs)
  | f :: rest, fs, accC, logs =>
    match sweepVisit convs co destDir assetsDirname now fs f with
    | .error (e, fs1, lg) => .error (e, fs1, logs ++ lg)
    | .ok (fs1, b, lg) =>
      sweepGo convs co destDir assetsDirname now rest fs1
        (if b then f :: accC else accC) (logs ++ lg)

/-- Method `FileWatcher.process_existing_files` (watcher.py 174-194). -/
def processExistingFiles (convs : List Conv) (co : SrcFile → Except String ConvResult)
    (exts : List String) (destDir : FsPath) (assetsDirname : String) (now : Nat)
    (traversal : List SrcFile) (fs : FS) :
    Except (String × FS × List LogEntry) (FS × List SrcFile × List LogEntry) :=
  sweepGo convs co destDir assetsDirname now (sweepFileList exts traversal) fs []
    [⟨.info, .sweepStart, ""⟩]

/-- List of files the sweep converted (empty when the sweep raised). -/
def convertedOf :
    Except (String × FS × List LogEntry) (FS × List SrcFile × List LogEntry) →
    List SrcFile
  | .ok (_, c, _) => c
  | .error _ => []

/-- Whether the sweep terminated by a propagating exception. -/
def sweepRaised :
    Except (String × FS × List LogEntry) (FS × List SrcFile × List LogEntry) → Bool
  | .error _ => true
  | .ok _ => false

/-- Log entries emitted up to a propagating exception. -/
def errorLogsOf :
    Except (String × FS × List LogEntry) (FS × List SrcFile × List LogEntry) →
    List LogEntry
  | .error (_, _, l) => l
  | .ok _ => []

/-- Written files at the moment a propagating exception left the sweep. -/
def errorFilesOf :
    Except (String × FS × List LogEntry) (FS × List SrcFile × List LogEntry) →
    List (FsPath × Nat)
  | .error (_, fs, _) => fs.files
  | .ok _ => []

/-! ## Output-path derivation from an absolute source path
(`_process_file`, watcher.py 111-123) -/

/-- Computes `relative_path = file_path.relative_to(config.src_dir)` followed by
`output_dir = dest_dir / relative_path.parent / file_path.stem`
(watcher.py 112-116), for a source path given by its components. -/
def processOutputDir (srcDir destDir : FsPath) (filePath : FsPath) : FsPath :=
  let rel := filePath.drop srcDir.length
  let name := filePath.getLast?.getD ""
  destDir ++ rel.dropLast ++ [stemOf name]

/-- Computes `md_path = output_dir / f"{file_path.stem}.md"` (watcher.py 123). -/
def processMdPath (srcDir destDir : FsPath) (filePath : FsPath) : FsPath :=
  processOutputDir srcDir destDir filePath ++
    [stemOf (filePath.getLast?.getD "") ++ ".md"]

/-- Computes `assets_dir = output_dir / config.assets_dirname` (watcher.py 129). -/
def processAssetsDir (srcDir destDir : FsPath) (assetsDirname : String)
    (filePath : FsPath) : FsPath :=
  processOutputDir srcDir destDir filePath ++ [assetsDirname]

/-- Modelled from the spec: the OutputUnit Markdown location
`destRoot / relativeParentDir / stem / stem.md` (spec §3, OutputUnit). -/
def specOutputUnitMd (destRoot relativeParentDir : FsPath) (stem : String) : FsPath :=
  destRoot ++ relativeParentDir ++ [stem, stem ++ ".md"]

/-! ## Daemon lifecycle (`Daemon.stop`, `Daemon.start`, `Daemon._is_running`,
daemon.py 28-93)

Process liveness is abstracted: for `stop`, `alive n` says whether the
target process still exists at the `n`-th `os.kill` call issued by
`stop` (call `0` is the `SIGTERM`, calls `1..10` are the liveness checks
of the wait loop, a dead process makes the call raise
`ProcessLookupError`). -/

structure StopResult where
  sentTerm : Bool
  polls : Nat
  sentKill : Bool
  pidFileRemoved : Bool
deriving DecidableEq, Repr

/-- The wait loop of `Daemon.stop` (daemon.py 52-57): up to `r` rounds,
each sleeping `0.5` seconds and then probing `os.kill(pid, 0)`; a
`ProcessLookupError` breaks out.  Returns the number of probes made and
whether the process was seen to have exited. -/
def stopPollLoop (alive : Nat → Bool) : Nat → Nat → Nat × Bool
  | 0, _ => (0, false)
  | r + 1, i =>
    if alive i then
      let (p, e) := stopPollLoop alive r (i + 1)
      (p + 1, e)
    else (1, true)

/-- Method `Daemon.stop` (daemon.py 39-69).  When the PID file is missing the
method returns after an error log, touching nothing.  Otherwise it sends
`SIGTERM` (an already-dead process raises `ProcessLookupError`, caught at
line 62), waits via the poll loop, sends `SIGKILL` if the loop finished
with the process still alive (the `for`-`else`), and in `finally` removes
the PID file if it exists. -/
def stopDaemon (pidFileExists : Bool) (alive : Nat → Bool) : StopResult :=
  if ¬ pidFileExists then ⟨false, 0, false, false⟩
  else if ¬ alive 0 then ⟨true, 0, false, true⟩
  else
    let (p, exited) := stopPollLoop alive 10 1
    ⟨true, p, ¬ exited, true⟩

/-- The PID-file state: `none` = absent; `some none` = present but its
content does not parse as an integer (`int()` raises `ValueError`);
`some (some pid)` = records `pid`. -/
abbrev PidFile := Option (Option Nat)

/-- Method `Daemon._is_running` (daemon.py 81-93): missing file means not
running; an unparsable file or a recorded process that no longer exists
(probed with `os.kill(pid, 0)`, `aliveOf pid`) deletes the stale PID file
and means not running.  Returns the verdict and the PID file afterwards. -/
def isRunningDaemon (pidFile : PidFile) (aliveOf : Nat → Bool) : Bool × PidFile :=
  match pidFile with
  | none => (false, none)
  | some none => (false, none)
  | some (some pid) =>
    if aliveOf pid then (true, some (some pid)) else (false, none)

/-- Method `Daemon.start` (daemon.py 28-37) up to the point the run loop is
entered: when `_is_running()` holds it logs and calls `sys.exit(1)`
without touching the PID file; otherwise the daemon proceeds and (in
`_daemonize` or `_run`) writes its own PID.  Returns the `sys.exit` code,
if any, and the PID file afterwards. -/
def startDaemon (pidFile : PidFile) (aliveOf : Nat → Bool) (selfPid : Nat) :
    Option Nat × PidFile :=
  match isRunningDaemon pidFile aliveOf with
  | (true, pf) => (some 1, pf)
  | (false, _) => (none, some (some selfPid))

/-- Proof-side predicate used for the sweep-idempotence argument: the
file's target Markdown is at least as new as the source, or no converter
claims the file's extension. -/
def mdOk (convs : List Conv) (destDir : FsPath) (fs : FS) (f : SrcFile) : Prop :=
  (∃ m, fs.mtimeOf (mdPathOf destDir f) = some m ∧ f.mtime ≤ m)
  ∨ findConverter convs f.name = none

/-! ## Association-list helper lemmas -/

theorem lookup_append {α β : Type} [BEq α] (l₁ l₂ : List (α × β)) (a : α) :
    (l₁ ++ l₂).lookup a = (l₁.lookup a).orElse (fun _ => l₂.lookup a) := by
  induction l₁ with
  | nil => simp [List.lookup]
  | cons p t ih =>
    rcases p with ⟨k, v⟩
    simp only [List.cons_append, List.lookup]
    cases a == k <;> simp [ih]

theorem lookup_mem {α β : Type} [BEq α] [LawfulBEq α] {l : List (α × β)} {a : α}
    {b : β} (h : l.lookup a = some b) : (a, b) ∈ l := by
  induction l with
  | nil => simp [List.lookup] at h
  | cons p t ih =>
    rcases p with ⟨k, v⟩
    simp only [List.lookup] at h
    rcases hk : a == k with _ | _
    · rw [hk] at h
      exact List.mem_cons_of_mem _ (ih h)
    · rw [hk] at h
      obtain rfl : v = b := by simpa using h
      have : a = k := by simpa using hk
      subst this
      exact List.mem_cons_self _ _

theorem lookup_eq_none {α β : Type} [BEq α] [LawfulBEq α] {l : List (α × β)}
    {a : α} (h : ∀ q ∈ l, q.1 ≠ a) : l.lookup a = none := by
  induction l with
  | nil => simp [List.lookup]
  | cons p t ih =>
    rcases p with ⟨k, v⟩
    have hk : ¬ (a == k) = true := by
      simp only [beq_iff_eq]
      exact fun hak => h (k, v) (List.mem_cons_self _ _) (by simp [hak])
    simp only [List.lookup, Bool.not_eq_true] at hk ⊢
    rw [hk]
    exact ih fun q hq => h q (List.mem_cons_of_mem _ hq)

/-! ## C4: output-path determinism -/

/-- C4: the output location of a source file is derived deterministically
from the source path alone (the derivation below is a pure function of
the path and the configured roots, with no other state) as
`destRoot / relativeParentDir / stem / stem.md`, with assets under an
optional assets subdirectory of the same directory; in particular for
source `sourceRoot/a/b/report.pdf` with `destRoot = /out` the Markdown
path is exactly `/out/a/b/report/report.md`. -/
theorem outputPath_deterministic :
    (∀ (srcDir destDir relDir : FsPath) (fname adn : String),
      processMdPath srcDir destDir (srcDir ++ relDir ++ [fname])
          = specOutputUnitMd destDir relDir (stemOf fname)
        ∧ processAssetsDir srcDir destDir adn (srcDir ++ relDir ++ [fname])
          = destDir ++ relDir ++ [stemOf fname, adn])
    ∧ processMdPath ["src"] ["out"] ["src", "a", "b", "report.pdf"]
        = ["out", "a", "b", "report", "report.md"] := by
  constructor
  · intro srcDir destDir relDir fname adn
    have hdrop : (srcDir ++ (relDir ++ [fname])).drop srcDir.length
        = relDir ++ [fname] := List.drop_left _ _
    have hlast : (srcDir ++ (relDir ++ [fname])).getLast? = some fname := by
      rw [← List.append_assoc]
      exact List.getLast?_concat _
    constructor
    · simp [processMdPath, processOutputDir, specOutputUnitMd, hdrop, hlast,
        List.dropLast_concat]
    · simp [processAssetsDir, processOutputDir, hdrop, hlast, List.dropLast_concat]
  · rfl

/-- Closed instance of `outputPath_deterministic`. -/
theorem outputPath_deterministic_witness :
    processMdPath ["src"] ["out"] ["src", "a", "b", "report.pdf"]
      = ["out", "a", "b", "report", "report.md"] :=
  outputPath_deterministic.2

/-! ## C5: the daemon's converter list is fixed -/

/-- C5: `FileWatcher.__init__` always builds the converter list
`[PDFConverter, DocxConverter]` no matter what `supported_extensions`
the configuration holds; any file whose lower-cased suffix is neither
`.pdf` nor `.docx` finds no converter, and a create event for it leaves
the destination tree untouched — while the one-shot `convert` command
carries four converter types. -/
theorem watcherConverters_fixed :
    (∀ cfg : ConfigM, fileWatcherConverters cfg = [Conv.pdf, Conv.docx])
    ∧ (∀ (cfg : ConfigM) (name : String),
        strLower (suffixOf name) ≠ ".pdf" → strLower (suffixOf name) ≠ ".docx" →
        findConverter (fileWatcherConverters cfg) name = none)
    ∧ (∀ (cfg : ConfigM) (co : SrcFile → Except String ConvResult)
        (obsOf : SrcFile → Nat → PollObs) (now : Nat) (fs : FS) (f : SrcFile),
        strLower (suffixOf f.name) ≠ ".pdf" → strLower (suffixOf f.name) ≠ ".docx" →
        (onCreated cfg (fileWatcherConverters cfg) co obsOf now fs false f).1 = fs)
    ∧ convertCommandConverters = [Conv.pdf, Conv.docx, Conv.hwpx, Conv.html] := by
  have hfind : ∀ (cfg : ConfigM) (name : String),
      strLower (suffixOf name) ≠ ".pdf" → strLower (suffixOf name) ≠ ".docx" →
      findConverter (fileWatcherConverters cfg) name = none := by
    intro cfg name h1 h2
    simp [findConverter, fileWatcherConverters, List.find?, canHandle, Conv.exts, h1, h2]
  refine ⟨fun _ => rfl, hfind, ?_, rfl⟩
  intro cfg co obsOf now fs f h1 h2
  unfold onCreated
  by_cases hs : strLower (suffixOf f.name) ∈ cfg.supportedExtensions
  · simp [hs, hfind cfg f.name h1 h2]
  · simp [hs]

/-- Closed instance of `watcherConverters_fixed`: a `.hwpx` create event
(the extension the default `init` config lists) finds no converter in the
daemon path and writes nothing. -/
theorem watcherConverters_fixed_witness :
    findConverter (fileWatcherConverters defaultConfig) "x.hwpx" = none
    ∧ (onCreated ⟨["src"], ["dest"], [".hwpx"], "assets"⟩
        (fileWatcherConverters ⟨["src"], ["dest"], [".hwpx"], "assets"⟩)
        (fun _ => Except.ok ⟨"", []⟩) (fun _ _ => PollObs.size 1) 0 ⟨[], []⟩ false
        ⟨[], "x.hwpx", 0⟩).1 = ⟨[], []⟩ :=
  ⟨watcherConverters_fixed.2.1 defaultConfig "x.hwpx" (by decide) (by decide),
   watcherConverters_fixed.2.2.1 ⟨["src"], ["dest"], [".hwpx"], "assets"⟩
     (fun _ => Except.ok ⟨"", []⟩) (fun _ _ => PollObs.size 1) 0 ⟨[], []⟩
     ⟨[], "x.hwpx", 0⟩ (by decide) (by decide)⟩

/-! ## C8: events with no claiming converter -/

/-- C8 counterexample: for a create event whose extension is configured
(`.hwpx` is in `supported_extensions`) but claimed by no registered
converter, `on_created` logs the condition at WARNING level
(watcher.py line 46), not at debug level as the claim states. -/
theorem onCreated_noConverter_logsWarning :
    ¬ (∀ entry ∈ (onCreated ⟨[], [], [".hwpx"], "assets"⟩ [Conv.pdf, Conv.docx]
        (fun _ => Except.ok ⟨"", []⟩) (fun _ _ => PollObs.size 1) 0 ⟨[], []⟩ false
        ⟨[], "a.hwpx", 0⟩).2,
        entry.tag = LogTag.noConverter → entry.level = LogLevel.debug) := by
  decide

/-- C8 (amended): a create event whose extension is not in
`supported_extensions` is ignored with a debug log, while one whose
extension is configured but claimed by no registered converter is also
ignored but logged at warning level; in both cases the destination tree
is untouched and the only other log entry is the info-level detection
line. -/
theorem onCreated_unclaimed_extension :
    ∀ (cfg : ConfigM) (convs : List Conv) (co : SrcFile → Except String ConvResult)
      (obsOf : SrcFile → Nat → PollObs) (now : Nat) (fs : FS) (f : SrcFile),
      (strLower (suffixOf f.name) ∉ cfg.supportedExtensions →
        onCreated cfg convs co obsOf now fs false f
          = (fs, [⟨.info, .detected, f.name⟩, ⟨.debug, .unsupportedExt, f.name⟩]))
      ∧ (strLower (suffixOf f.name) ∈ cfg.supportedExtensions →
        findConverter convs f.name = none →
        onCreated cfg convs co obsOf now fs false f
          = (fs, [⟨.info, .detected, f.name⟩, ⟨.warning, .noConverter, f.name⟩])) := by
  intro cfg convs co obsOf now fs f
  constructor
  · intro h
    simp [onCreated, h]
  · intro h hf
    simp [onCreated, h, hf]

/-- Closed instance of `onCreated_unclaimed_extension`. -/
theorem onCreated_unclaimed_extension_witness :
    onCreated defaultConfig [Conv.pdf, Conv.docx] (fun _ => Except.ok ⟨"", []⟩)
        (fun _ _ => PollObs.size 1) 0 ⟨[], []⟩ false ⟨[], "notes.txt", 3⟩
      = (⟨[], []⟩, [⟨.info, .detected, "notes.txt"⟩,
          ⟨.debug, .unsupportedExt, "notes.txt"⟩]) :=
  (onCreated_unclaimed_extension defaultConfig [Conv.pdf, Conv.docx]
    (fun _ => Except.ok ⟨"", []⟩) (fun _ _ => PollObs.size 1) 0 ⟨[], []⟩
    ⟨[], "notes.txt", 3⟩).1 (by decide)

/-! ## C10: double-start refusal and stale-PID cleanup -/

/-- C10: `Daemon.start` with a live process recorded in the PID file
refuses with `sys.exit(1)` and leaves the PID file as it was (no second
PID file is written); when the PID file exists but the recorded process
is not alive, `_is_running` deletes the stale PID file as a side effect
of detecting non-liveness. -/
theorem startRefusal_and_staleCleanup :
    ∀ (pid selfPid : Nat) (aliveOf : Nat → Bool),
      (aliveOf pid = true →
        startDaemon (some (some pid)) aliveOf selfPid = (some 1, some (some pid)))
      ∧ (aliveOf pid = false →
        isRunningDaemon (some (some pid)) aliveOf = (false, none)) := by
  intro pid selfPid aliveOf
  constructor
  · intro h
    simp [startDaemon, isRunningDaemon, h]
  · intro h
    simp [isRunningDaemon, h]

/-- Closed instance of `startRefusal_and_staleCleanup`. -/
theorem startRefusal_and_staleCleanup_witness :
    startDaemon (some (some 5)) (fun n => n == 5) 9 = (some 1, some (some 5))
    ∧ isRunningDaemon (some (some 5)) (fun _ => false) = (false, none) :=
  ⟨(startRefusal_and_staleCleanup 5 9 (fun n => n == 5)).1 (by decide),
   (startRefusal_and_staleCleanup 5 9 (fun _ => false)).2 rfl⟩

/-! ## C3: the backlog sweep has no per-file error containment -/

/-- C3: evaluation of `process_existing_files` at the failing input.  A
two-file backlog where the first file's conversion raises aborts the
whole sweep: the exception propagates out (`.error`), the second file is
never converted, and nothing is written.  The claim's error isolation
(N−1 conversions, one logged error, no propagation) does not hold:
`_process_file` is called at watcher.py line 194 with no surrounding
`try`, unlike the event path at lines 54-57. -/
theorem sweepError_propagates :
    processExistingFiles [Conv.pdf, Conv.docx]
        (fun f => if f.name == "bad.pdf" then .error "corrupt" else .ok ⟨"# md", []⟩)
        [".pdf"] ["out"] "assets" 5
        [⟨[], "bad.pdf", 1⟩, ⟨[], "good.pdf", 1⟩] ⟨[], []⟩
      = .error ("corrupt", ⟨[], [["out", "bad"]]⟩,
          [⟨.info, .sweepStart, ""⟩, ⟨.info, .convertExisting, "bad.pdf"⟩])
    ∧ convertedOf (processExistingFiles [Conv.pdf, Conv.docx]
        (fun f => if f.name == "bad.pdf" then .error "corrupt" else .ok ⟨"# md", []⟩)
        [".pdf"] ["out"] "assets" 5
        [⟨[], "bad.pdf", 1⟩, ⟨[], "good.pdf", 1⟩] ⟨[], []⟩) = [] := by
  constructor
  · rfl
  · rfl

/-! ## C7: sweep coverage and processing order -/

/-- C7 counterexample: with two configured extensions the sweep does not
visit files in directory-traversal order.  For traversal order
`[a.docx, b.pdf]` and `supported_extensions = [".pdf", ".docx"]` the
visit order is `[b.pdf, a.docx]`, because the loop at watcher.py 178-179
iterates extension by extension. -/
theorem sweepOrder_not_traversal :
    sweepFileList [".pdf", ".docx"]
        [⟨[], "a.docx", 0⟩, ⟨[], "b.pdf", 0⟩]
      ≠ ([⟨[], "a.docx", 0⟩, ⟨[], "b.pdf", 0⟩] : List SrcFile).filter
          (fun f => [".pdf", ".docx"].any (fun e => rglobMatches e f)) := by
  decide

/-- C7 (amended): the backlog sweep visits exactly the files under the
source root matching some configured extension, processing them serially
— grouped by configured extension in configuration order, in
directory-traversal order within each extension (so for a single
configured extension the order is exactly traversal order). -/
theorem sweep_visitsAll_groupedByExtension :
    (∀ (exts : List String) (traversal : List SrcFile) (f : SrcFile),
        f ∈ sweepFileList exts traversal ↔
          f ∈ traversal ∧ ∃ e ∈ exts, rglobMatches e f = true)
    ∧ (∀ (exts : List String) (traversal : List SrcFile),
        sweepFileList exts traversal
          = exts.flatMap (fun e => traversal.filter (rglobMatches e)))
    ∧ (∀ (e : String) (traversal : List SrcFile),
        sweepFileList [e] traversal = traversal.filter (rglobMatches e)) := by
  refine ⟨?_, fun _ _ => rfl, ?_⟩
  · intro exts traversal f
    simp [sweepFileList, List.mem_flatMap, List.mem_filter]
    tauto
  · intro e traversal
    simp [sweepFileList]

/-- Closed instance of `sweep_visitsAll_groupedByExtension`. -/
theorem sweep_visitsAll_groupedByExtension_witness :
    (⟨[], "b.pdf", 0⟩ : SrcFile) ∈ sweepFileList [".pdf", ".docx"]
        [⟨[], "a.docx", 0⟩, ⟨[], "b.pdf", 0⟩] :=
  (sweep_visitsAll_groupedByExtension.1 [".pdf", ".docx"]
      [⟨[], "a.docx", 0⟩, ⟨[], "b.pdf", 0⟩] ⟨[], "b.pdf", 0⟩).mpr
    ⟨by decide, ".pdf", by decide, by decide⟩

/-! ## C9: graceful-then-forceful stop -/

theorem stopPollLoop_spec (alive : Nat → Bool) :
    ∀ (r i : Nat),
      (stopPollLoop alive r i).1 ≤ r ∧
      ((stopPollLoop alive r i).2 = false ↔
        ∀ j, i ≤ j → j < i + r → alive j = true) := by
  intro r
  induction r with
  | zero =>
    intro i
    refine ⟨Nat.le_refl _, ?_⟩
    simp only [stopPollLoop]
    constructor
    · intro _ j h1 h2
      omega
    · intro _
      trivial
  | succ r ih =>
    intro i
    by_cases h : alive i
    · obtain ⟨ih1, ih2⟩ := ih (i + 1)
      rcases hpe : stopPollLoop alive r (i + 1) with ⟨p, e⟩
      rw [hpe] at ih1 ih2
      have hred : stopPollLoop alive (r + 1) i = (p + 1, e) := by
        simp [stopPollLoop, h, hpe]
      rw [hred]
      refine ⟨by simpa using ih1, ?_⟩
      simp only at ih2 ⊢
      rw [ih2]
      constructor
      · intro hall j h1 h2
        rcases Nat.eq_or_lt_of_le h1 with rfl | hlt
        · exact h
        · exact hall j hlt (by omega)
      · intro hall j h1 h2
        exact hall j (by omega) (by omega)
    · have hred : stopPollLoop alive (r + 1) i = (1, true) := by
        simp [stopPollLoop, h]
      rw [hred]
      refine ⟨by omega, ?_⟩
      simp only []
      constructor
      · intro hfalse
        exact absurd hfalse (by simp)
      · intro hall
        exact absurd (hall i (Nat.le_refl _) (by omega)) (by simp [h])

/-- C9: when the PID file exists, `Daemon.stop` sends the graceful
`SIGTERM`, probes the process a bounded number of times (at most 10, one
probe per fixed 0.5s sleep), sends the forceful `SIGKILL` exactly when
the process is still alive at the terminate call and at all 10 probes,
and always removes the PID file — also when the process was already gone
at the `SIGTERM` (in which case no probe is made and no kill is sent). -/
theorem stopGracefulThenForceful :
    ∀ alive : Nat → Bool,
      (stopDaemon true alive).sentTerm = true
      ∧ (stopDaemon true alive).pidFileRemoved = true
      ∧ (stopDaemon true alive).polls ≤ 10
      ∧ ((stopDaemon true alive).sentKill = true ↔
          (alive 0 = true ∧ ∀ j, 1 ≤ j → j ≤ 10 → alive j = true))
      ∧ (alive 0 = false →
          (stopDaemon true alive).sentKill = false
            ∧ (stopDaemon true alive).polls = 0) := by
  intro alive
  by_cases h0 : alive 0
  · obtain ⟨hle, hiff⟩ := stopPollLoop_spec alive 10 1
    rcases hpe : stopPollLoop alive 10 1 with ⟨p, e⟩
    rw [hpe] at hle hiff
    have hred : stopDaemon true alive = ⟨true, p, !e, true⟩ := by
      simp [stopDaemon, h0, hpe]
    rw [hred]
    simp only at hle hiff
    refine ⟨rfl, rfl, hle, ?_, fun hc => absurd h0 (by simp [hc])⟩
    constructor
    · intro hk
      have he : e = false := by
        cases e
        · rfl
        · simp at hk
      refine ⟨h0, fun j h1 h2 => hiff.mp he j h1 (by omega)⟩
    · rintro ⟨-, hall⟩
      have : e = false := hiff.mpr fun j h1 h2 => hall j h1 (by omega)
      simp [this]
  · have hred : stopDaemon true alive = ⟨true, 0, false, true⟩ := by
      simp [stopDaemon, h0]
    rw [hred]
    refine ⟨rfl, rfl, by decide, ?_, fun _ => ⟨rfl, rfl⟩⟩
    constructor
    · intro hk
      simp at hk
    · rintro ⟨h0', -⟩
      exact absurd h0' (by simp [h0])

/-- Closed instance of `stopGracefulThenForceful`: a process that never
dies gets all 10 probes, the forced kill, and PID-file removal. -/
theorem stopGracefulThenForceful_witness :
    (stopDaemon true (fun _ => true)).pidFileRemoved = true
    ∧ (stopDaemon true (fun _ => true)).sentKill = true :=
  ⟨(stopGracefulThenForceful (fun _ => true)).2.1,
   (stopGracefulThenForceful (fun _ => true)).2.2.2.1.mpr
     ⟨rfl, fun _ _ _ => rfl⟩⟩

/-! ## C2: sweep skip decision and idempotence -/

theorem mem_sweepFileList {exts : List String} {traversal : List SrcFile}
    {f : SrcFile} :
    f ∈ sweepFileList exts traversal ↔
      f ∈ traversal ∧ ∃ e ∈ exts, rglobMatches e f = true := by
  simp only [sweepFileList, List.mem_flatMap, List.mem_filter]
  tauto

theorem mdOk_extend (convs : List Conv) (destDir : FsPath) (fs fs1 : FS)
    (f : SrcFile) (now : Nat)
    (hext : ∃ pre, fs1.files = pre ++ fs.files ∧ ∀ q ∈ pre, q.2 = now)
    (hnow : f.mtime ≤ now)
    (hok : mdOk convs destDir fs f) : mdOk convs destDir fs1 f := by
  rcases hok with ⟨m, hm, hle⟩ | hnc
  · rcases hext with ⟨pre, hfe, hpn⟩
    left
    unfold FS.mtimeOf at hm ⊢
    rw [hfe, lookup_append]
    cases hl : pre.lookup (mdPathOf destDir f) with
    | none =>
      exact ⟨m, by simp [Option.orElse, hm], hle⟩
    | some v =>
      have hv : v = now := hpn _ (lookup_mem hl)
      subst hv
      exact ⟨v, by simp [Option.orElse, hl], hnow⟩
  · exact Or.inr hnc

theorem foldl_writeFile_files (adir : FsPath) (now : Nat) :
    ∀ (as : List String) (fs : FS),
      ∃ pre, (as.foldl (fun acc a => acc.writeFile (adir ++ [a]) now) fs).files
          = pre ++ fs.files
        ∧ ∀ q ∈ pre, q.2 = now ∧ q.1.length = adir.length + 1 := by
  intro as
  induction as with
  | nil =>
    intro fs
    exact ⟨[], by simp, by simp⟩
  | cons a as ih =>
    intro fs
    obtain ⟨pre, hp, hq⟩ := ih (fs.writeFile (adir ++ [a]) now)
    refine ⟨pre ++ [(adir ++ [a], now)], ?_, ?_⟩
    · rw [List.foldl_cons, hp]
      simp [FS.writeFile]
    · intro q hq'
      rcases List.mem_append.mp hq' with h | h
      · exact hq q h
      · have : q = (adir ++ [a], now) := by simpa using h
        subst this
        simp

theorem processFile_pure (destDir : FsPath) (adn : String)
    (res : SrcFile → ConvResult) (now : Nat) (fs : FS) (f : SrcFile) :
    ∃ fs1, processFile destDir adn (fun g => Except.ok (res g)) now fs f = .ok fs1
      ∧ (∃ pre, fs1.files = pre ++ fs.files ∧ ∀ q ∈ pre, q.2 = now)
      ∧ fs1.mtimeOf (mdPathOf destDir f) = some now := by
  cases hA : (res f).assets.isEmpty with
  | true =>
    refine ⟨(fs.mkdir (outputDirOf destDir f)).writeFile (mdPathOf destDir f) now,
      by simp [processFile, hA], ?_, ?_⟩
    · exact ⟨[(mdPathOf destDir f, now)], by simp [FS.writeFile, FS.mkdir], by simp⟩
    · simp [FS.mtimeOf, FS.writeFile, FS.mkdir, List.lookup]
  | false =>
    obtain ⟨pre, hp, hq⟩ := foldl_writeFile_files (assetsDirOf destDir adn f) now
      (res f).assets
      (((fs.mkdir (outputDirOf destDir f)).writeFile (mdPathOf destDir f) now).mkdir
        (assetsDirOf destDir adn f))
    have hbasefiles :
        ((((fs.mkdir (outputDirOf destDir f)).writeFile (mdPathOf destDir f) now).mkdir
          (assetsDirOf destDir adn f)).files)
        = (mdPathOf destDir f, now) :: fs.files := by
      simp [FS.writeFile, FS.mkdir]
    have hPF : processFile destDir adn (fun g => Except.ok (res g)) now fs f
        = .ok ((res f).assets.foldl
            (fun acc a => acc.writeFile (assetsDirOf destDir adn f ++ [a]) now)
            (((fs.mkdir (outputDirOf destDir f)).writeFile (mdPathOf destDir f)
                now).mkdir (assetsDirOf destDir adn f))) := by
      simp [processFile, hA]
    refine ⟨_, hPF, ?_, ?_⟩
    · refine ⟨pre ++ [(mdPathOf destDir f, now)], ?_, ?_⟩
      · rw [hp, hbasefiles]
        simp
      · intro q hq'
        rcases List.mem_append.mp hq' with h | h
        · exact (hq q h).1
        · have : q = (mdPathOf destDir f, now) := by simpa using h
          subst this
          simp
    · unfold FS.mtimeOf
      rw [hp, hbasefiles, lookup_append]
      have hnone : pre.lookup (mdPathOf destDir f) = none := by
        apply lookup_eq_none
        intro q hq' hcontra
        have h2 := (hq q hq').2
        rw [hcontra] at h2
        simp [mdPathOf, assetsDirOf, outputDirOf] at h2
      simp [hnone, Option.orElse, List.lookup]

theorem sweepGo_pure_establishes (convs : List Conv) (res : SrcFile → ConvResult)
    (destDir : FsPath) (adn : String) (now : Nat) :
    ∀ (l : List SrcFile) (fs : FS) (accC : List SrcFile) (logs : List LogEntry),
      (∀ f ∈ l, f.mtime ≤ now) →
      ∃ fs1 accC1 logs1,
        sweepGo convs (fun g => Except.ok (res g)) destDir adn now l fs accC logs
          = .ok (fs1, accC1, logs1)
        ∧ (∃ pre, fs1.files = pre ++ fs.files ∧ ∀ q ∈ pre, q.2 = now)
        ∧ ∀ f ∈ l, mdOk convs destDir fs1 f := by
  intro l
  induction l with
  | nil =>
    intro fs accC logs _
    exact ⟨fs, accC.reverse, logs, rfl, ⟨[], by simp, by simp⟩, by simp⟩
  | cons f rest ih =>
    intro fs accC logs h
    have hfnow : f.mtime ≤ now := h f (List.mem_cons_self _ _)
    have hrest : ∀ g ∈ rest, g.mtime ≤ now := fun g hg => h g (List.mem_cons_of_mem _ hg)
    by_cases hup : mdUpToDate destDir fs f = true
    · obtain ⟨fs1, a1, l1, heq, hext, hmd⟩ :=
        ih fs accC (logs ++ [⟨.debug, .skipExisting, f.name⟩]) hrest

      have hgo : sweepGo convs (fun g => Except.ok (res g)) destDir adn now
          (f :: rest) fs accC logs
          = sweepGo convs (fun g => Except.ok (res g)) destDir adn now rest fs accC
              (logs ++ [⟨.debug, .skipExisting, f.name⟩]) := by
        simp [sweepGo, sweepVisit, hup]
      refine ⟨fs1, a1, l1, hgo ▸ heq, hext, ?_⟩
      intro g hg
      rcases List.mem_cons.mp hg with rfl | hg'
      · have hok : mdOk convs destDir fs g := by
          left
          unfold mdUpToDate at hup
          cases hm : fs.mtimeOf (mdPathOf destDir g) with
          | none => rw [hm] at hup; simp at hup
          | some m => rw [hm] at hup; exact ⟨m, rfl, by simpa using hup⟩
        exact mdOk_extend convs destDir fs fs1 g now hext hfnow hok
      · exact hmd g hg'
    · cases hfc : findConverter convs f.name with
      | none =>
        obtain ⟨fs1, a1, l1, heq, hext, hmd⟩ :=
          ih fs accC (logs ++ [⟨.info, .convertExisting, f.name⟩]) hrest
        have hgo : sweepGo convs (fun g => Except.ok (res g)) destDir adn now
            (f :: rest) fs accC logs
            = sweepGo convs (fun g => Except.ok (res g)) destDir adn now rest fs accC
                (logs ++ [⟨.info, .convertExisting, f.name⟩]) := by
          simp [sweepGo, sweepVisit, hup, hfc]
        refine ⟨fs1, a1, l1, hgo ▸ heq, hext, ?_⟩
        intro g hg
        rcases List.mem_cons.mp hg with rfl | hg'
        · exact mdOk_extend convs destDir fs fs1 g now hext hfnow (Or.inr hfc)
        · exact hmd g hg'
      | some c =>
        obtain ⟨fsP, hP, hPext, hPmd⟩ := processFile_pure destDir adn res now fs f
        obtain ⟨fs1, a1, l1, heq, hext, hmd⟩ :=
          ih fsP (f :: accC) (logs ++ [⟨.info, .convertExisting, f.name⟩]) hrest
        have hgo : sweepGo convs (fun g => Except.ok (res g)) destDir adn now
            (f :: rest) fs accC logs
            = sweepGo convs (fun g => Except.ok (res g)) destDir adn now rest fsP
                (f :: accC) (logs ++ [⟨.info, .convertExisting, f.name⟩]) := by
          simp [sweepGo, sweepVisit, hup, hfc, hP]
        obtain ⟨pre1, hp1, hq1⟩ := hext
        obtain ⟨preP, hpP, hqP⟩ := hPext
        have hcomb : ∃ pre, fs1.files = pre ++ fs.files ∧ ∀ q ∈ pre, q.2 = now := by
          refine ⟨pre1 ++ preP, by rw [hp1, hpP, List.append_assoc], ?_⟩
          intro q hq
          rcases List.mem_append.mp hq with h' | h'
          · exact hq1 q h'
          · exact hqP q h'
        refine ⟨fs1, a1, l1, hgo ▸ heq, hcomb, ?_⟩
        intro g hg
        rcases List.mem_cons.mp hg with rfl | hg'
        · exact mdOk_extend convs destDir fsP fs1 g now ⟨pre1, hp1, hq1⟩ hfnow
            (Or.inl ⟨now, hPmd, hfnow⟩)
        · exact hmd g hg'

theorem sweepGo_allOk_noop (convs : List Conv)
    (co : SrcFile → Except String ConvResult) (destDir : FsPath) (adn : String)
    (now : Nat) :
    ∀ (l : List SrcFile) (fs : FS) (accC : List SrcFile) (logs : List LogEntry),
      (∀ f ∈ l, mdOk convs destDir fs f) →
      ∃ logs1, sweepGo convs co destDir adn now l fs accC logs
        = .ok (fs, accC.reverse, logs1) := by
  intro l
  induction l with
  | nil =>
    intro fs accC logs _
    exact ⟨logs, rfl⟩
  | cons f rest ih =>
    intro fs accC logs h
    have hrest : ∀ g ∈ rest, mdOk convs destDir fs g :=
      fun g hg => h g (List.mem_cons_of_mem _ hg)
    by_cases hup : mdUpToDate destDir fs f = true
    · obtain ⟨logs1, heq⟩ := ih fs accC (logs ++ [⟨.debug, .skipExisting, f.name⟩]) hrest
      refine ⟨logs1, ?_⟩
      have hgo : sweepGo convs co destDir adn now (f :: rest) fs accC logs
          = sweepGo convs co destDir adn now rest fs accC
              (logs ++ [⟨.debug, .skipExisting, f.name⟩]) := by
        simp [sweepGo, sweepVisit, hup]
      rw [hgo]
      exact heq
    · have hnc : findConverter convs f.name = none := by
        rcases h f (List.mem_cons_self _ _) with ⟨m, hm, hle⟩ | hnc
        · exfalso
          apply hup
          unfold mdUpToDate
          rw [hm]
          simpa using hle
        · exact hnc
      obtain ⟨logs1, heq⟩ := ih fs accC (logs ++ [⟨.info, .convertExisting, f.name⟩]) hrest
      refine ⟨logs1, ?_⟩
      have hgo : sweepGo convs co destDir adn now (f :: rest) fs accC logs
          = sweepGo convs co destDir adn now rest fs accC
              (logs ++ [⟨.info, .convertExisting, f.name⟩]) := by
        simp [sweepGo, sweepVisit, hup, hnc]
      rw [hgo]
      exact heq

/-- C2 counterexample: under the daemon's converter list, a `.hwpx`
source with configured extension `.hwpx` and no Markdown present is
nevertheless not converted by the sweep (no converter is registered for
it), falsifying "skipped if and only if the Markdown exists and is at
least as new as the source". -/
theorem sweepSkip_iff_cex :
    ¬ (((⟨[], "doc.hwpx", 5⟩ : SrcFile) ∉ convertedOf
          (processExistingFiles [Conv.pdf, Conv.docx]
            (fun _ => Except.ok ⟨"", []⟩) [".hwpx"] ["dest"] "assets" 10
            [⟨[], "doc.hwpx", 5⟩] ⟨[], []⟩))
        ↔ mdUpToDate ["dest"] ⟨[], []⟩ ⟨[], "doc.hwpx", 5⟩ = true) := by
  decide

/-- C2 (amended): in the backlog sweep a visited file is left
unconverted exactly when its target Markdown already exists with
modification time ≥ the source's modification time, or no registered
converter claims its extension (and a skipped visit leaves the
filesystem untouched); consequently, when every source is older than the
write clock, a second sweep over an unchanged tree converts nothing and
leaves the destination tree exactly as the first sweep left it. -/
theorem backlogSweep_skip_and_idempotent :
    (∀ (convs : List Conv) (res : SrcFile → ConvResult) (destDir : FsPath)
        (adn : String) (now : Nat) (fs : FS) (f : SrcFile) (fs1 : FS) (b : Bool)
        (lg : List LogEntry),
        sweepVisit convs (fun g => Except.ok (res g)) destDir adn now fs f
            = .ok (fs1, b, lg) →
        ((b = false ↔ (mdUpToDate destDir fs f = true
            ∨ findConverter convs f.name = none))
          ∧ (b = false → fs1 = fs)))
    ∧ (∀ (convs : List Conv) (res : SrcFile → ConvResult) (exts : List String)
        (destDir : FsPath) (adn : String) (now : Nat) (traversal : List SrcFile)
        (fs : FS),
        (∀ f ∈ traversal, f.mtime ≤ now) →
        ∃ fs1 conv1 logs1,
          processExistingFiles convs (fun g => Except.ok (res g)) exts destDir adn
              now traversal fs
            = .ok (fs1, conv1, logs1)
          ∧ ∀ (co2 : SrcFile → Except String ConvResult) (now2 : Nat),
              ∃ logs2, processExistingFiles convs co2 exts destDir adn now2
                  traversal fs1
                = .ok (fs1, [], logs2)) := by
  constructor
  · intro convs res destDir adn now fs f fs1 b lg hv
    by_cases hup : mdUpToDate destDir fs f = true
    · rw [sweepVisit, if_pos hup] at hv
      obtain ⟨rfl, rfl, rfl⟩ : fs = fs1 ∧ false = b ∧ _ = lg := by
        simpa using hv
      exact ⟨by simp [hup], fun _ => rfl⟩
    · cases hfc : findConverter convs f.name with
      | none =>
        rw [sweepVisit, if_neg hup, hfc] at hv
        obtain ⟨rfl, rfl, rfl⟩ : fs = fs1 ∧ false = b ∧ _ = lg := by
          simpa using hv
        exact ⟨by simp [hfc], fun _ => rfl⟩
      | some c =>
        obtain ⟨fsP, hP, -, -⟩ := processFile_pure destDir adn res now fs f
        rw [sweepVisit, if_neg hup, hfc, hP] at hv
        obtain ⟨rfl, rfl, rfl⟩ : fsP = fs1 ∧ true = b ∧ _ = lg := by
          simpa using hv
        refine ⟨?_, by simp⟩
        simp [hup, hfc]
  · intro convs res exts destDir adn now traversal fs hnow
    have hnow' : ∀ f ∈ sweepFileList exts traversal, f.mtime ≤ now :=
      fun f hf => hnow f (mem_sweepFileList.mp hf).1
    obtain ⟨fs1, a1, l1, heq, hext, hmd⟩ :=
      sweepGo_pure_establishes convs res destDir adn now
        (sweepFileList exts traversal) fs [] [⟨.info, .sweepStart, ""⟩] hnow'
    refine ⟨fs1, a1, l1, heq, ?_⟩
    intro co2 now2
    obtain ⟨logs2, h2⟩ :=
      sweepGo_allOk_noop convs co2 destDir adn now2 (sweepFileList exts traversal)
        fs1 [] [⟨.info, .sweepStart, ""⟩] hmd
    exact ⟨logs2, h2⟩

/-- Closed instance of `backlogSweep_skip_and_idempotent`: one `.pdf`
backlog file is converted by the first sweep and the second sweep is a
no-op on the resulting state. -/
theorem backlogSweep_skip_and_idempotent_witness :
    ∃ fs1 conv1 logs1,
      processExistingFiles [Conv.pdf, Conv.docx]
          (fun g => Except.ok ((fun _ => ⟨"# x", []⟩ : SrcFile → ConvResult) g))
          [".pdf"] ["out"] "assets" 10 [⟨[], "r.pdf", 3⟩] ⟨[], []⟩
        = .ok (fs1, conv1, logs1)
      ∧ ∀ (co2 : SrcFile → Except String ConvResult) (now2 : Nat),
          ∃ logs2, processExistingFiles [Conv.pdf, Conv.docx] co2 [".pdf"] ["out"]
              "assets" now2 [⟨[], "r.pdf", 3⟩] fs1
            = .ok (fs1, [], logs2) :=
  backlogSweep_skip_and_idempotent.2 [Conv.pdf, Conv.docx] (fun _ => ⟨"# x", []⟩)
    [".pdf"] ["out"] "assets" 10 [⟨[], "r.pdf", 3⟩] ⟨[], []⟩ (by decide)

/-! ## C6: failed conversions write nothing -/

theorem sweepGo_error_logs (convs : List Conv)
    (co : SrcFile → Except String ConvResult) (destDir : FsPath) (adn : String)
    (now : Nat) :
    ∀ (l : List SrcFile) (fs : FS) (accC : List SrcFile) (logs : List LogEntry)
      (e : String) (fsE : FS) (logsE : List LogEntry),
      (∀ en ∈ logs, en.level ≠ LogLevel.error) →
      sweepGo convs co destDir adn now l fs accC logs = .error (e, fsE, logsE) →
      ∀ en ∈ logsE, en.level ≠ LogLevel.error := by
  intro l
  induction l with
  | nil =>
    intro fs accC logs e fsE logsE hl h
    simp [sweepGo] at h
  | cons f rest ih =>
    intro fs accC logs e fsE logsE hl h
    by_cases hup : mdUpToDate destDir fs f = true
    · rw [show sweepGo convs co destDir adn now (f :: rest) fs accC logs
          = sweepGo convs co destDir adn now rest fs accC
              (logs ++ [⟨.debug, .skipExisting, f.name⟩]) from by
        simp [sweepGo, sweepVisit, hup]] at h
      refine ih fs accC _ e fsE logsE ?_ h
      intro en hen
      rcases List.mem_append.mp hen with h' | h'
      · exact hl en h'
      · have : en = ⟨.debug, .skipExisting, f.name⟩ := by simpa using h'
        subst this
        simp
    · cases hfc : findConverter convs f.name with
      | none =>
        rw [show sweepGo convs co destDir adn now (f :: rest) fs accC logs
            = sweepGo convs co destDir adn now rest fs accC
                (logs ++ [⟨.info, .convertExisting, f.name⟩]) from by
          simp [sweepGo, sweepVisit, hup, hfc]] at h
        refine ih fs accC _ e fsE logsE ?_ h
        intro en hen
        rcases List.mem_append.mp hen with h' | h'
        · exact hl en h'
        · have : en = ⟨.info, .convertExisting, f.name⟩ := by simpa using h'
          subst this
          simp
      | some c =>
        cases hP : processFile destDir adn co now fs f with
        | error pe =>
          rcases pe with ⟨e1, fs1⟩
          rw [show sweepGo convs co destDir adn now (f :: rest) fs accC logs
              = .error (e1, fs1, logs ++ [⟨.info, .convertExisting, f.name⟩]) from by
            simp [sweepGo, sweepVisit, hup, hfc, hP]] at h
          obtain ⟨rfl, rfl, rfl⟩ : e1 = e ∧ fs1 = fsE
              ∧ logs ++ [⟨.info, .convertExisting, f.name⟩] = logsE := by
            simpa using h
          intro en hen
          rcases List.mem_append.mp hen with h' | h'
          · exact hl en h'
          · have : en = ⟨.info, .convertExisting, f.name⟩ := by simpa using h'
            subst this
            simp
        | ok fs1 =>
          rw [show sweepGo convs co destDir adn now (f :: rest) fs accC logs
              = sweepGo convs co destDir adn now rest fs1 (f :: accC)
                  (logs ++ [⟨.info, .convertExisting, f.name⟩]) from by
            simp [sweepGo, sweepVisit, hup, hfc, hP]] at h
          refine ih fs1 (f :: accC) _ e fsE logsE ?_ h
          intro en hen
          rcases List.mem_append.mp hen with h' | h'
          · exact hl en h'
          · have : en = ⟨.info, .convertExisting, f.name⟩ := by simpa using h'
            subst this
            simp

/-- C6 counterexample: a failing conversion in the backlog sweep ends the
sweep with a propagating exception and no error-level log entry at all —
in particular no error naming the source path — falsifying "the error
is logged together with the source path" as stated for every failing
file. -/
theorem sweepFailure_unlogged :
    sweepRaised (processExistingFiles [Conv.pdf, Conv.docx]
        (fun f => if f.name == "broken.pdf" then .error "parse failure"
          else .ok ⟨"# t", []⟩)
        [".pdf"] ["d"] "assets" 7
        [⟨[], "broken.pdf", 2⟩, ⟨[], "fine.pdf", 2⟩] ⟨[], []⟩) = true
    ∧ ¬ (∃ entry ∈ errorLogsOf (processExistingFiles [Conv.pdf, Conv.docx]
        (fun f => if f.name == "broken.pdf" then .error "parse failure"
          else .ok ⟨"# t", []⟩)
        [".pdf"] ["d"] "assets" 7
        [⟨[], "broken.pdf", 2⟩, ⟨[], "fine.pdf", 2⟩] ⟨[], []⟩),
        entry.level = LogLevel.error) := by
  decide

/-- C6 (amended): a failing conversion aborts that file's processing
before any write, so the destination file set is exactly what it was (no
Markdown file and no asset files for that file are produced by the
failed attempt).  On the event-driven path, `on_created` catches the
failure and logs an error-level entry naming the source path.  On the
backlog-sweep path, the exception instead propagates out of the sweep
and the log entries emitted up to that point contain no error-level
record of the failure. -/
theorem conversionFailure_writesNothing :
    (∀ (destDir : FsPath) (adn : String) (co : SrcFile → Except String ConvResult)
        (now : Nat) (fs : FS) (f : SrcFile) (e : String) (fs1 : FS),
        processFile destDir adn co now fs f = .error (e, fs1) →
        fs1.files = fs.files)
    ∧ (∀ (cfg : ConfigM) (convs : List Conv)
        (co : SrcFile → Except String ConvResult)
        (obsOf : SrcFile → Nat → PollObs) (now : Nat) (fs : FS) (f : SrcFile)
        (e : String) (c : Conv),
        co f = .error e →
        strLower (suffixOf f.name) ∈ cfg.supportedExtensions →
        findConverter convs f.name = some c →
        waitForFileReady (obsOf f) = true →
        ((onCreated cfg convs co obsOf now fs false f).1.files = fs.files
          ∧ (⟨.error, .convertFailed, f.name⟩ : LogEntry)
              ∈ (onCreated cfg convs co obsOf now fs false f).2))
    ∧ (∀ (convs : List Conv) (co : SrcFile → Except String ConvResult)
        (exts : List String) (destDir : FsPath) (adn : String) (now : Nat)
        (traversal : List SrcFile) (fs : FS) (e : String) (fsE : FS)
        (logsE : List LogEntry),
        processExistingFiles convs co exts destDir adn now traversal fs
            = .error (e, fsE, logsE) →
        ∀ en ∈ logsE, en.level ≠ LogLevel.error) := by
  refine ⟨?_, ?_, ?_⟩
  · intro destDir adn co now fs f e fs1 h
    cases hco : co f with
    | error e1 =>
      rw [show processFile destDir adn co now fs f
          = .error (e1, fs.mkdir (outputDirOf destDir f)) from by
        simp [processFile, hco]] at h
      obtain ⟨-, rfl⟩ : e1 = e ∧ fs.mkdir (outputDirOf destDir f) = fs1 := by
        simpa using h
      simp [FS.mkdir]
    | ok r =>
      exfalso
      cases hA : r.assets.isEmpty with
      | true => simp [processFile, hco, hA] at h
      | false => simp [processFile, hco, hA] at h
  · intro cfg convs co obsOf now fs f e c hco hs hfc hw
    have hP : processFile cfg.destDir cfg.assetsDirname co now fs f
        = .error (e, fs.mkdir (outputDirOf cfg.destDir f)) := by
      simp [processFile, hco]
    simp [onCreated, hs, hfc, hw, hP, FS.mkdir]
  · intro convs co exts destDir adn now traversal fs e fsE logsE h
    exact sweepGo_error_logs convs co destDir adn now (sweepFileList exts traversal)
      fs [] [⟨.info, .sweepStart, ""⟩] e fsE logsE (by simp) h

/-- Closed instance of `conversionFailure_writesNothing`: an event-path
conversion failure leaves the file set empty and logs the failure with
the source path. -/
theorem conversionFailure_writesNothing_witness :
    (onCreated ⟨["s"], ["d"], [".pdf"], "assets"⟩ [Conv.pdf, Conv.docx]
        (fun _ => Except.error "boom") (fun _ _ => PollObs.size 6) 4 ⟨[], []⟩ false
        ⟨[], "a.pdf", 0⟩).1.files = (⟨[], []⟩ : FS).files
    ∧ (⟨.error, .convertFailed, "a.pdf"⟩ : LogEntry)
        ∈ (onCreated ⟨["s"], ["d"], [".pdf"], "assets"⟩ [Conv.pdf, Conv.docx]
            (fun _ => Except.error "boom") (fun _ _ => PollObs.size 6) 4 ⟨[], []⟩
            false ⟨[], "a.pdf", 0⟩).2 :=
  conversionFailure_writesNothing.2.1 ⟨["s"], ["d"], [".pdf"], "assets"⟩
    [Conv.pdf, Conv.docx] (fun _ => Except.error "boom") (fun _ _ => PollObs.size 6)
    4 ⟨[], []⟩ ⟨[], "a.pdf", 0⟩ "boom" Conv.pdf rfl (by decide) (by decide)
    (by decide)

/-! ## C1: characterization of the stability wait -/

theorem waitShift (obs : Nat → PollObs) (k fuel : Nat)
    (hlow : ¬ STABILITY_CHECK_COUNT ≤ (scState obs (k + 1)).1)
    (hm : obs k ≠ .missing) :
    (∃ i, i < fuel + 1 ∧ STABILITY_CHECK_COUNT ≤ (scState obs (k + i + 1)).1
        ∧ ∀ j, k ≤ j → j ≤ k + i → obs j ≠ .missing) ↔
    (∃ i, i < fuel ∧ STABILITY_CHECK_COUNT ≤ (scState obs (k + 1 + i + 1)).1
        ∧ ∀ j, k + 1 ≤ j → j ≤ k + 1 + i → obs j ≠ .missing) := by
  constructor
  · rintro ⟨i, hi, hsc, hj⟩
    cases i with
    | zero => exact absurd hsc hlow
    | succ i =>
      refine ⟨i, by omega, ?_, ?_⟩
      · have he : k + 1 + i + 1 = k + (i + 1) + 1 := by omega
        rw [he]
        exact hsc
      · intro j h1 h2
        exact hj j (by omega) (by omega)
  · rintro ⟨i, hi, hsc, hj⟩
    refine ⟨i + 1, by omega, ?_, ?_⟩
    · have he : k + (i + 1) + 1 = k + 1 + i + 1 := by omega
      rw [he]
      exact hsc
    · intro j h1 h2
      rcases Nat.eq_or_lt_of_le h1 with rfl | hlt
      · exact hm
      · exact hj j (by omega) (by omega)

theorem waitAux_iff (obs : Nat → PollObs) :
    ∀ (fuel k : Nat),
      waitForFileReadyAux obs fuel k (scState obs k).1 (scState obs k).2 = true ↔
      ∃ i, i < fuel ∧ STABILITY_CHECK_COUNT ≤ (scState obs (k + i + 1)).1
        ∧ ∀ j, k ≤ j → j ≤ k + i → obs j ≠ .missing := by
  intro fuel
  induction fuel with
  | zero =>
    intro k
    constructor
    · intro h
      simp [waitForFileReadyAux] at h
    · rintro ⟨i, hi, -⟩
      omega
  | succ fuel ih =>
    intro k
    rcases hobs : obs k with _ | _ | n
    · -- the file is gone at poll k: immediate failure
      constructor
      · intro h
        simp [waitForFileReadyAux, hobs] at h
      · rintro ⟨i, hi, hsc, hj⟩
        exact absurd hobs (hj k (Nat.le_refl k) (by omega))
    · -- OSError at poll k: the counter resets, last size unchanged
      have hs1 : scState obs (k + 1) = (0, (scState obs k).2) := by
        show waitStep (scState obs k).1 (scState obs k).2 (obs k) = _
        rw [hobs]
        rfl
      have hred : waitForFileReadyAux obs (fuel + 1) k (scState obs k).1
            (scState obs k).2
          = waitForFileReadyAux obs fuel (k + 1) (scState obs (k + 1)).1
              (scState obs (k + 1)).2 := by
        rw [hs1]
        simp [waitForFileReadyAux, hobs]
      rw [hred, ih (k + 1)]
      refine (waitShift obs k fuel ?_ ?_).symm
      · rw [hs1]
        intro hc
        simp [STABILITY_CHECK_COUNT] at hc
      · rw [hobs]
        simp
    · by_cases hn : n = 0
      · -- empty file: the counter resets, last size set to 0
        subst hn
        have hs1 : scState obs (k + 1) = (0, some 0) := by
          show waitStep (scState obs k).1 (scState obs k).2 (obs k) = _
          rw [hobs]
          simp [waitStep]
        have hred : waitForFileReadyAux obs (fuel + 1) k (scState obs k).1
              (scState obs k).2
            = waitForFileReadyAux obs fuel (k + 1) (scState obs (k + 1)).1
                (scState obs (k + 1)).2 := by
          rw [hs1]
          simp [waitForFileReadyAux, hobs]
        rw [hred, ih (k + 1)]
        refine (waitShift obs k fuel ?_ ?_).symm
        · rw [hs1]
          intro hc
          simp [STABILITY_CHECK_COUNT] at hc
        · rw [hobs]
          simp
      · by_cases hls : (scState obs k).2 = some n
        · have hs1 : scState obs (k + 1) = ((scState obs k).1 + 1, some n) := by
            show waitStep (scState obs k).1 (scState obs k).2 (obs k) = _
            rw [hobs]
            simp [waitStep, hn, hls]
          by_cases hbig : STABILITY_CHECK_COUNT ≤ (scState obs k).1 + 1
          · -- the counter reaches the target at poll k: success
            have hred : waitForFileReadyAux obs (fuel + 1) k (scState obs k).1
                  (scState obs k).2 = true := by
              simp [waitForFileReadyAux, hobs, hn, hls, hbig]
            rw [hred]
            constructor
            · intro _
              refine ⟨0, by omega, ?_, ?_⟩
              · simp only [Nat.add_zero]
                rw [hs1]
                exact hbig
              · intro j h1 h2
                have hjk : j = k := by omega
                subst hjk
                rw [hobs]
                simp
            · intro _
              rfl
          · -- size unchanged and non-zero: the counter grows
            have hred : waitForFileReadyAux obs (fuel + 1) k (scState obs k).1
                  (scState obs k).2
                = waitForFileReadyAux obs fuel (k + 1) (scState obs (k + 1)).1
                    (scState obs (k + 1)).2 := by
              rw [hs1]
              simp [waitForFileReadyAux, hobs, hn, hls, hbig]
            rw [hred, ih (k + 1)]
            refine (waitShift obs k fuel ?_ ?_).symm
            · rw [hs1]
              simpa using hbig
            · rw [hobs]
              simp
        · -- size changed: the counter resets
          have hs1 : scState obs (k + 1) = (0, some n) := by
            show waitStep (scState obs k).1 (scState obs k).2 (obs k) = _
            rw [hobs]
            simp [waitStep, hn, hls]
          have hred : waitForFileReadyAux obs (fuel + 1) k (scState obs k).1
                (scState obs k).2
              = waitForFileReadyAux obs fuel (k + 1) (scState obs (k + 1)).1
                  (scState obs (k + 1)).2 := by
            rw [hs1]
            simp [waitForFileReadyAux, hobs, hn, hls]
          rw [hred, ih (k + 1)]
          refine (waitShift obs k fuel ?_ ?_).symm
          · rw [hs1]
            intro hc
            simp [STABILITY_CHECK_COUNT] at hc
          · rw [hobs]
            simp

/-- C1: `_wait_for_file_ready` keeps a counter of consecutive equal and
non-zero size readings (`scState`; any size change and any zero reading
resets it, per `waitStep`), and returns success exactly when that
counter reaches `STABILITY_CHECK_COUNT = 3` at some poll within the
`maxPolls = MAX_WAIT_TIME / STABILITY_CHECK_INTERVAL = 30 / 0.5 = 60`
polls allowed by the elapsed-time bound, with the file present at every
poll up to that moment; otherwise — the file gone at some poll first, or
the time budget exhausted — it returns failure. -/
theorem waitForFileReady_characterization (obs : Nat → PollObs) :
    MAX_WAIT_TIME / STABILITY_CHECK_INTERVAL = (maxPolls : ℚ)
    ∧ (waitForFileReady obs = true ↔
        ∃ k, k < maxPolls ∧ STABILITY_CHECK_COUNT ≤ (scState obs (k + 1)).1
          ∧ ∀ j, j ≤ k → obs j ≠ .missing) := by
  constructor
  · norm_num [MAX_WAIT_TIME, STABILITY_CHECK_INTERVAL, maxPolls]
  · rw [show waitForFileReady obs
        = waitForFileReadyAux obs maxPolls 0 (scState obs 0).1 (scState obs 0).2
        from rfl]
    rw [waitAux_iff obs maxPolls 0]
    constructor
    · rintro ⟨i, hi, hsc, hj⟩
      exact ⟨i, hi, by simpa using hsc, fun j hjle => hj j (Nat.zero_le j) (by omega)⟩
    · rintro ⟨k, hk, hsc, hj⟩
      exact ⟨k, hk, by simpa using hsc, fun j _ hj2 => hj j (by omega)⟩

/-- Closed instance of `waitForFileReady_characterization`: a file whose
size is a constant 5 bytes stabilizes (the counter reaches 3 at the
fourth poll). -/
theorem waitForFileReady_characterization_witness :
    waitForFileReady (fun _ => PollObs.size 5) = true :=
  ((waitForFileReady_characterization (fun _ => PollObs.size 5)).2).mpr
    ⟨3, by decide, by decide, by decide⟩

end Docs2Mdd
